import Mathlib

/-!
Shallow embedding of the portfolio-rebalancing library in `src/src/lib.rs`
(crate root of the repository).

Modelling conventions:

* `rust_decimal::Decimal` values (prices and percentages) are modelled as
  exact rationals `ℚ`.  All arithmetic the claims exercise stays well inside
  `Decimal`'s 96-bit range, where `Decimal` arithmetic is exact.
* The `/` operator of `rust_decimal` panics on a zero divisor, so the
  embedded rebalancing computation returns `Option`: `none` models a panic,
  `some s` models a normal return of the suggestion `s`.
* `Decimal::trunc` truncates toward zero; it is modelled by `qtrunc`.
* `ToPrimitive::to_usize` on a (truncated, integral) `Decimal` returns
  `Some` exactly when the value is an integer in `[0, usize::MAX]`;
  `usize` is modelled as the 64-bit word of the target platform, so the
  range is `[0, 2^64)`.  This is modelled by `toUsize`.
* Rust `HashMap<&str, usize>` is modelled as an association list
  `List (String × Nat)` with insert-replace semantics (`mapInsert`) and
  key lookup (`mapGet`).  The `HashMap` iteration order in the
  "sell everything not in the allocation" loop is arbitrary in Rust; the
  loop inserts distinct keys whose bindings do not interact, so the map it
  produces is order-independent, and the embedding fixes the
  first-occurrence order of the held stock names (`firstOccNames`).
-/

/-- Truncation toward zero on `ℚ`, the semantics of `Decimal::trunc`. -/
def qtrunc (x : ℚ) : ℤ := if x < 0 then -⌊-x⌋ else ⌊x⌋

/-- Semantics of `Decimal::to_usize` on an integral value: `some` exactly for
integers representable in a 64-bit `usize`. -/
def toUsize (t : ℤ) : Option Nat :=
  if 0 ≤ t ∧ t < 2 ^ 64 then some t.toNat else none

/-- Association-list model of `HashMap<&str, usize>::insert`: replace the
binding of an existing key, otherwise append the new binding. -/
def mapInsert : List (String × Nat) → String → Nat → List (String × Nat)
  | [], k, v => [(k, v)]
  | p :: l, k, v => if p.1 = k then (k, v) :: l else p :: mapInsert l k v

/-- Association-list model of `HashMap<&str, usize>::get`. -/
def mapGet : List (String × Nat) → String → Option Nat
  | [], _ => none
  | p :: l, k => if p.1 = k then some p.2 else mapGet l k

/-- First-occurrence deduplication of a list of names: the key set of the
`current_units` hash map, in a canonical order. -/
def firstOccNames : List String → List String
  | [] => []
  | n :: l => n :: (firstOccNames l).filter (fun m => ¬ m = n)

/-- Embedding of `struct Stock` in `lib.rs` (lines 91-95): a name and a current price. -/
structure Stock where
  name : String
  current_price : ℚ
  deriving DecidableEq, Repr

/-- Embedding of `Stock::new` (lib.rs lines 98-106): stores the arguments unchanged; the
price is deliberately not validated (see the comment in the source). -/
def Stock.new (name : String) (price : ℚ) : Stock :=
  { name := name, current_price := price }

/-- Embedding of `struct PortfolioTarget` (lib.rs lines 133-136): a list of
(percentage, stock) pairs. -/
structure PortfolioTarget where
  targets : List (ℚ × Stock)
  deriving DecidableEq, Repr

/-- Embedding of `PortfolioTarget::new` (lib.rs lines 141-145): the 100%-single-stock
allocation. -/
def PortfolioTarget.new (stock : Stock) : PortfolioTarget :=
  { targets := [(100, stock)] }

/-- Embedding of `PortfolioTarget::try_from_vec` (lib.rs lines 147-157): first rejects a
percentage sum different from 100, then rejects any non-positive
percentage, otherwise stores the given list unchanged. -/
def PortfolioTarget.try_from_vec (stocks : List (ℚ × Stock)) :
    Except String PortfolioTarget :=
  if ¬ (stocks.map Prod.fst).sum = 100 then
    Except.error "Los stocks objetivos no suman un 100%"
  else if stocks.any (fun stock => stock.1 ≤ 0) then
    Except.error "Al menos uno de los stocks provistos tiene valor 0 o negativo."
  else
    Except.ok { targets := stocks }

/-- Embedding of `PortfolioTarget::contains_key` (lib.rs lines 159-161). -/
def PortfolioTarget.contains_key (t : PortfolioTarget) (name : String) : Bool :=
  t.targets.any (fun stock => stock.2.name = name)

/-- Embedding of `struct RebalanceSuggestion` (lib.rs lines 118-125): the two output maps. -/
structure RebalanceSuggestion where
  to_buy : List (String × Nat)
  to_sell : List (String × Nat)
  deriving DecidableEq, Repr

/-- Embedding of `total_balance` (lib.rs line 47): sum of the current prices of all held
stocks. -/
def totalBalance (stocks : List Stock) : ℚ :=
  (stocks.map Stock.current_price).sum

/-- The content of the `current_units` hash map (lib.rs lines 42-45): how many
held positions bear the given name (`get(name).unwrap_or(&0)` semantics). -/
def heldUnits (stocks : List Stock) (name : String) : Nat :=
  (stocks.filter (fun s => s.name = name)).length

/-- One iteration of the allocation loop (lib.rs lines 61-84) on the
accumulated suggestion.  `none` models the rust_decimal panic on
`target_money / price_per_unit` when the price is zero; otherwise
`target_units` is the truncated quotient converted with
`to_usize().unwrap_or(0)` and the suggestion is extended. -/
def rebalanceStep (total_balance : ℚ) (current_units : String → Nat)
    (acc : RebalanceSuggestion) (e : ℚ × Stock) : Option RebalanceSuggestion :=
  let name := e.2.name
  let price_per_unit := e.2.current_price
  let target_money := total_balance * (e.1 / 100)
  if price_per_unit = 0 then
    none
  else
    let target_units := (toUsize (qtrunc (target_money / price_per_unit))).getD 0
    let held_units := current_units name
    if held_units < target_units then
      some { acc with to_buy := mapInsert acc.to_buy name (target_units - held_units) }
    else if target_units < held_units then
      some { acc with to_sell := mapInsert acc.to_sell name (held_units - target_units) }
    else
      some acc

/-- The allocation loop (lib.rs lines 61-84) over the whole target list; a
panic in any iteration aborts the computation. -/
def runTargets (total_balance : ℚ) (current_units : String → Nat) :
    RebalanceSuggestion → List (ℚ × Stock) → Option RebalanceSuggestion
  | acc, [] => some acc
  | acc, e :: rest =>
    match rebalanceStep total_balance current_units acc e with
    | none => none
    | some acc' => runTargets total_balance current_units acc' rest

/-- The "sell everything that is not in the allocation" loop
(lib.rs lines 54-59), iterating over the distinct held names. -/
def sellNotInAllocation (stocks : List Stock) (allocation : PortfolioTarget) :
    List (String × Nat) :=
  (firstOccNames (stocks.map Stock.name)).foldl
    (fun m n =>
      if allocation.contains_key n then m
      else mapInsert m n (heldUnits stocks n))
    []

/-- Embedding of `Portfolio::rebalance_portfolio` (lib.rs lines 39-87).  The portfolio is
passed as its two fields (`stocks`, `allocation`).  `none` models a panic. -/
def rebalance_portfolio (stocks : List Stock) (allocation : PortfolioTarget) :
    Option RebalanceSuggestion :=
  let total_balance := totalBalance stocks
  if total_balance = 0 then
    some { to_buy := [], to_sell := [] }
  else
    runTargets total_balance (heldUnits stocks)
      { to_buy := [], to_sell := sellNotInAllocation stocks allocation }
      allocation.targets

/-! ### Helper lemmas about the map model -/

theorem mapGet_mapInsert_self (m : List (String × Nat)) (k : String) (v : Nat) :
    mapGet (mapInsert m k v) k = some v := by
  induction m with
  | nil => simp [mapInsert, mapGet]
  | cons p l ih =>
    by_cases h : p.1 = k
    · simp [mapInsert, mapGet, h]
    · simp [mapInsert, mapGet, h, ih]

theorem mapGet_mapInsert_ne (m : List (String × Nat)) (k n : String) (v : Nat)
    (h : ¬ k = n) : mapGet (mapInsert m k v) n = mapGet m n := by
  induction m with
  | nil => simp [mapInsert, mapGet, h]
  | cons p l ih =>
    by_cases hp : p.1 = k
    · simp [mapInsert, mapGet, hp, h, ih]
    · have hnk : ¬ n = k := fun hh => h hh.symm
      by_cases hn : p.1 = n
      · simp [mapInsert, mapGet, hp, hn, hnk]
      · simp [mapInsert, mapGet, hp, hn, ih]

theorem mem_mapInsert (m : List (String × Nat)) (k : String) (v : Nat)
    (p : String × Nat) (h : p ∈ mapInsert m k v) : p = (k, v) ∨ p ∈ m := by
  induction m with
  | nil => simpa [mapInsert] using h
  | cons q l ih =>
    by_cases hq : q.1 = k
    · simp only [mapInsert, if_pos hq, List.mem_cons] at h
      rcases h with h | h
      · exact Or.inl h
      · exact Or.inr (List.mem_cons_of_mem _ h)
    · simp only [mapInsert, if_neg hq, List.mem_cons] at h
      rcases h with h | h
      · exact Or.inr (by simp [h])
      · rcases ih h with h | h
        · exact Or.inl h
        · exact Or.inr (List.mem_cons_of_mem _ h)

theorem mapGet_isSome_mapInsert (m : List (String × Nat)) (k n : String) (v : Nat) :
    (mapGet (mapInsert m k v) n).isSome = true ↔
      n = k ∨ (mapGet m n).isSome = true := by
  by_cases h : k = n
  · subst h
    simp [mapGet_mapInsert_self]
  · rw [mapGet_mapInsert_ne m k n v h]
    have hnk : ¬ n = k := fun hh => h hh.symm
    simp [hnk]

theorem mem_firstOccNames (l : List String) (n : String) :
    n ∈ firstOccNames l ↔ n ∈ l := by
  induction l with
  | nil => simp [firstOccNames]
  | cons a l ih =>
    by_cases h : n = a
    · simp [firstOccNames, h]
    · simp [firstOccNames, List.mem_filter, h, ih]

theorem heldUnits_pos (stocks : List Stock) (n : String)
    (h : n ∈ stocks.map Stock.name) : 0 < heldUnits stocks n := by
  rcases List.mem_map.mp h with ⟨s, hs, hn⟩
  have : s ∈ stocks.filter (fun s => s.name = n) :=
    List.mem_filter.mpr ⟨hs, by simp [hn]⟩
  have := List.length_pos.mpr (List.ne_nil_of_mem this)
  simpa [heldUnits] using this

theorem contains_key_iff (t : PortfolioTarget) (n : String) :
    t.contains_key n = true ↔ ∃ e ∈ t.targets, e.2.name = n := by
  simp [PortfolioTarget.contains_key, List.any_eq_true]

/-! ### Properties of the sell-everything-not-in-the-allocation loop -/

theorem sellFold_get_contains (stocks : List Stock) (t : PortfolioTarget)
    (n : String) (hn : t.contains_key n = true) :
    ∀ (l : List String) (acc : List (String × Nat)),
      mapGet (l.foldl
        (fun m x => if t.contains_key x then m
                    else mapInsert m x (heldUnits stocks x)) acc) n = mapGet acc n := by
  intro l
  induction l with
  | nil => intro acc; rfl
  | cons a l ih =>
    intro acc
    by_cases ha : t.contains_key a
    · simp only [List.foldl_cons, if_pos ha]
      exact ih acc
    · simp only [List.foldl_cons, if_neg ha]
      rw [ih]
      apply mapGet_mapInsert_ne
      intro h
      exact ha (h ▸ hn)

theorem sellFold_get_preserved (stocks : List Stock) (t : PortfolioTarget)
    (n : String) :
    ∀ (l : List String) (acc : List (String × Nat)),
      mapGet acc n = some (heldUnits stocks n) →
      mapGet (l.foldl
        (fun m x => if t.contains_key x then m
                    else mapInsert m x (heldUnits stocks x)) acc) n =
        some (heldUnits stocks n) := by
  intro l
  induction l with
  | nil => intro acc h; exact h
  | cons a l ih =>
    intro acc h
    by_cases ha : t.contains_key a
    · simp only [List.foldl_cons, if_pos ha]
      exact ih acc h
    · simp only [List.foldl_cons, if_neg ha]
      apply ih
      by_cases han : a = n
      · subst han; simp [mapGet_mapInsert_self]
      · rw [mapGet_mapInsert_ne _ _ _ _ han]; exact h

theorem sellFold_get_not_contains (stocks : List Stock) (t : PortfolioTarget)
    (n : String) (hn : ¬ t.contains_key n = true) :
    ∀ (l : List String) (acc : List (String × Nat)), n ∈ l →
      mapGet (l.foldl
        (fun m x => if t.contains_key x then m
                    else mapInsert m x (heldUnits stocks x)) acc) n =
        some (heldUnits stocks n) := by
  intro l
  induction l with
  | nil => intro acc h; simp at h
  | cons a l ih =>
    intro acc hmem
    by_cases han : a = n
    · subst han
      simp only [List.foldl_cons, if_neg hn]
      exact sellFold_get_preserved stocks t a l _ (mapGet_mapInsert_self _ _ _)
    · rcases List.mem_cons.mp hmem with h | h
      · exact absurd h.symm han
      · by_cases ha : t.contains_key a
        · simp only [List.foldl_cons, if_pos ha]
          exact ih acc h
        · simp only [List.foldl_cons, if_neg ha]
          exact ih _ h

theorem sellFold_values_pos (stocks : List Stock) (t : PortfolioTarget) :
    ∀ (l : List String) (acc : List (String × Nat)),
      (∀ x ∈ l, 0 < heldUnits stocks x) →
      (∀ p ∈ acc, 0 < p.2) →
      ∀ p ∈ (l.foldl
        (fun m x => if t.contains_key x then m
                    else mapInsert m x (heldUnits stocks x)) acc), 0 < p.2 := by
  intro l
  induction l with
  | nil => intro acc _ hacc; exact hacc
  | cons a l ih =>
    intro acc hl hacc
    by_cases ha : t.contains_key a
    · simp only [List.foldl_cons, if_pos ha]
      exact ih acc (fun x hx => hl x (List.mem_cons_of_mem _ hx)) hacc
    · simp only [List.foldl_cons, if_neg ha]
      refine ih _ (fun x hx => hl x (List.mem_cons_of_mem _ hx)) ?_
      intro p hp
      rcases mem_mapInsert _ _ _ _ hp with h | h
      · rw [h]; exact hl a (List.mem_cons_self _ _)
      · exact hacc p h

theorem sellNotInAllocation_get_contains (stocks : List Stock)
    (t : PortfolioTarget) (n : String) (hn : t.contains_key n = true) :
    mapGet (sellNotInAllocation stocks t) n = none := by
  unfold sellNotInAllocation
  rw [sellFold_get_contains stocks t n hn]
  rfl

theorem sellNotInAllocation_get_not_contains (stocks : List Stock)
    (t : PortfolioTarget) (n : String) (hn : ¬ t.contains_key n = true)
    (hmem : n ∈ stocks.map Stock.name) :
    mapGet (sellNotInAllocation stocks t) n = some (heldUnits stocks n) := by
  unfold sellNotInAllocation
  exact sellFold_get_not_contains stocks t n hn _ _
    ((mem_firstOccNames _ _).mpr hmem)

theorem sellNotInAllocation_values_pos (stocks : List Stock)
    (t : PortfolioTarget) : ∀ p ∈ sellNotInAllocation stocks t, 0 < p.2 := by
  unfold sellNotInAllocation
  refine sellFold_values_pos stocks t _ _ ?_ ?_
  · intro x hx
    exact heldUnits_pos stocks x ((mem_firstOccNames _ _).mp hx)
  · intro p hp
    simp at hp

/-! ### Properties of the allocation loop -/

theorem rebalanceStep_eq (total : ℚ) (cu : String → Nat)
    (acc : RebalanceSuggestion) (e : ℚ × Stock) :
    rebalanceStep total cu acc e =
      if e.2.current_price = 0 then none
      else
        if cu e.2.name <
            (toUsize (qtrunc (total * (e.1 / 100) / e.2.current_price))).getD 0 then
          some
            ⟨mapInsert acc.to_buy e.2.name
                ((toUsize (qtrunc (total * (e.1 / 100) / e.2.current_price))).getD 0
                  - cu e.2.name),
              acc.to_sell⟩
        else if (toUsize (qtrunc (total * (e.1 / 100) / e.2.current_price))).getD 0
            < cu e.2.name then
          some
            ⟨acc.to_buy,
              mapInsert acc.to_sell e.2.name
                (cu e.2.name -
                  (toUsize (qtrunc (total * (e.1 / 100) / e.2.current_price))).getD 0)⟩
        else some acc := by
  cases acc
  rfl

theorem rebalanceStep_get_ne (total : ℚ) (cu : String → Nat)
    (acc acc2 : RebalanceSuggestion) (e : ℚ × Stock) (n : String)
    (hne : ¬ e.2.name = n)
    (h : rebalanceStep total cu acc e = some acc2) :
    mapGet acc2.to_buy n = mapGet acc.to_buy n ∧
    mapGet acc2.to_sell n = mapGet acc.to_sell n := by
  rw [rebalanceStep_eq] at h
  split at h
  · exact absurd h (by simp)
  · split at h
    · cases h
      exact ⟨mapGet_mapInsert_ne _ _ _ _ hne, rfl⟩
    · split at h
      · cases h
        exact ⟨rfl, mapGet_mapInsert_ne _ _ _ _ hne⟩
      · cases h
        exact ⟨rfl, rfl⟩

theorem rebalanceStep_values_pos (total : ℚ) (cu : String → Nat)
    (acc acc2 : RebalanceSuggestion) (e : ℚ × Stock)
    (hbuy : ∀ p ∈ acc.to_buy, 0 < p.2) (hsell : ∀ p ∈ acc.to_sell, 0 < p.2)
    (h : rebalanceStep total cu acc e = some acc2) :
    (∀ p ∈ acc2.to_buy, 0 < p.2) ∧ (∀ p ∈ acc2.to_sell, 0 < p.2) := by
  rw [rebalanceStep_eq] at h
  split at h
  · exact absurd h (by simp)
  · split at h
    · cases h
      dsimp only
      refine ⟨?_, hsell⟩
      intro p hp
      rcases mem_mapInsert _ _ _ _ hp with hh | hh
      · rw [hh]
        simpa using Nat.sub_pos_of_lt (by assumption)
      · exact hbuy p hh
    · split at h
      · cases h
        dsimp only
        refine ⟨hbuy, ?_⟩
        intro p hp
        rcases mem_mapInsert _ _ _ _ hp with hh | hh
        · rw [hh]
          simpa using Nat.sub_pos_of_lt (by assumption)
        · exact hsell p hh
      · cases h
        exact ⟨hbuy, hsell⟩

theorem runTargets_get_ne (total : ℚ) (cu : String → Nat) (n : String) :
    ∀ (l : List (ℚ × Stock)) (acc s : RebalanceSuggestion),
      (∀ e ∈ l, ¬ e.2.name = n) →
      runTargets total cu acc l = some s →
      mapGet s.to_buy n = mapGet acc.to_buy n ∧
      mapGet s.to_sell n = mapGet acc.to_sell n := by
  intro l
  induction l with
  | nil =>
    intro acc s _ h
    cases h
    exact ⟨rfl, rfl⟩
  | cons e l ih =>
    intro acc s hl h
    unfold runTargets at h
    rcases he : rebalanceStep total cu acc e with _ | acc2
    · rw [he] at h; cases h
    · rw [he] at h
      have h1 := rebalanceStep_get_ne total cu acc acc2 e n
        (hl e (List.mem_cons_self _ _)) he
      have h2 := ih acc2 s (fun x hx => hl x (List.mem_cons_of_mem _ hx)) h
      exact ⟨h2.1.trans h1.1, h2.2.trans h1.2⟩

theorem runTargets_values_pos (total : ℚ) (cu : String → Nat) :
    ∀ (l : List (ℚ × Stock)) (acc s : RebalanceSuggestion),
      (∀ p ∈ acc.to_buy, 0 < p.2) → (∀ p ∈ acc.to_sell, 0 < p.2) →
      runTargets total cu acc l = some s →
      (∀ p ∈ s.to_buy, 0 < p.2) ∧ (∀ p ∈ s.to_sell, 0 < p.2) := by
  intro l
  induction l with
  | nil =>
    intro acc s hb hs h
    cases h
    exact ⟨hb, hs⟩
  | cons e l ih =>
    intro acc s hb hs h
    unfold runTargets at h
    rcases he : rebalanceStep total cu acc e with _ | acc2
    · rw [he] at h; cases h
    · rw [he] at h
      have h1 := rebalanceStep_values_pos total cu acc acc2 e hb hs he
      exact ih acc2 s h1.1 h1.2 h

theorem runTargets_append (total : ℚ) (cu : String → Nat) :
    ∀ (l1 l2 : List (ℚ × Stock)) (acc : RebalanceSuggestion),
      runTargets total cu acc (l1 ++ l2) =
        match runTargets total cu acc l1 with
        | none => none
        | some a => runTargets total cu a l2 := by
  intro l1
  induction l1 with
  | nil => intro l2 acc; rfl
  | cons e l ih =>
    intro l2 acc
    rcases he : rebalanceStep total cu acc e with _ | acc2
    · simp [runTargets, he]
    · simp only [List.cons_append, runTargets, he]
      exact ih l2 acc2

/-! ### Arithmetic bridges -/

theorem qtrunc_of_nonneg (x : ℚ) (h : 0 ≤ x) : qtrunc x = ⌊x⌋ := by
  unfold qtrunc
  rw [if_neg (not_lt.mpr h)]

theorem toUsize_getD_of_fits (t : ℤ) (h0 : 0 ≤ t) (h1 : t < 2 ^ 64) :
    (toUsize t).getD 0 = t.toNat := by
  unfold toUsize
  rw [if_pos ⟨h0, h1⟩]
  rfl

theorem toUsize_getD_of_overflow (t : ℤ) (h : 2 ^ 64 ≤ t) :
    (toUsize t).getD 0 = 0 := by
  unfold toUsize
  rw [if_neg]
  · rfl
  · rintro ⟨_, h2⟩
    exact absurd h (not_le.mpr h2)

/-! ### The claims -/

/-- C3: `PortfolioTarget::try_from_vec` fails exactly when the percentages do
not sum to 100 or some percentage is non-positive; on success it keeps the
supplied pairs in order, and the two failure sub-cases carry distinct
messages (the sum check runs first). -/
theorem try_from_vec_spec (l : List (ℚ × Stock)) :
    ((∃ t, PortfolioTarget.try_from_vec l = Except.ok t) ↔
      (l.map Prod.fst).sum = 100 ∧ ∀ p ∈ l, 0 < p.1) ∧
    (∀ t, PortfolioTarget.try_from_vec l = Except.ok t → t.targets = l) ∧
    (¬ (l.map Prod.fst).sum = 100 →
      PortfolioTarget.try_from_vec l =
        Except.error "Los stocks objetivos no suman un 100%") ∧
    ((l.map Prod.fst).sum = 100 → (∃ p ∈ l, p.1 ≤ 0) →
      PortfolioTarget.try_from_vec l =
        Except.error
          "Al menos uno de los stocks provistos tiene valor 0 o negativo.") ∧
    ("Los stocks objetivos no suman un 100%" : String) ≠
      "Al menos uno de los stocks provistos tiene valor 0 o negativo." := by
  unfold PortfolioTarget.try_from_vec
  by_cases hsum : (l.map Prod.fst).sum = 100
  · by_cases hneg : ∃ p ∈ l, p.1 ≤ 0
    · have hany : l.any (fun stock => stock.1 ≤ 0) = true := by
        rcases hneg with ⟨p, hp, hple⟩
        exact List.any_eq_true.mpr ⟨p, hp, by simpa using hple⟩
      rw [if_neg (by simpa using hsum), if_pos hany]
      refine ⟨?_, by simp, by simp [hsum], fun _ _ => rfl, by decide⟩
      constructor
      · rintro ⟨t, ht⟩
        cases ht
      · rintro ⟨-, hall⟩
        rcases hneg with ⟨p, hp, hple⟩
        exact absurd (hall p hp) (not_lt.mpr hple)
    · have hany : l.any (fun stock => stock.1 ≤ 0) = false := by
        rw [← Bool.not_eq_true]
        intro hc
        rcases List.any_eq_true.mp hc with ⟨p, hp, hple⟩
        exact hneg ⟨p, hp, by simpa using hple⟩
      rw [if_neg (by simpa using hsum), hany]
      simp only [Bool.false_eq_true, if_false]
      refine ⟨?_, ?_, by simp [hsum], fun _ h => absurd h hneg, by decide⟩
      · constructor
        · intro _
          refine ⟨hsum, fun p hp => ?_⟩
          by_contra hc
          exact hneg ⟨p, hp, not_lt.mp hc⟩
        · intro _
          exact ⟨⟨l⟩, rfl⟩
      · intro t ht
        cases ht
        rfl
  · rw [if_pos (by simpa using hsum)]
    refine ⟨?_, by simp, fun _ => rfl, fun h => absurd h hsum, by decide⟩
    constructor
    · rintro ⟨t, ht⟩
      cases ht
    · rintro ⟨h, -⟩
      exact absurd h hsum

/-- Witness for C3 at concrete inputs: a sum of 90 is rejected with the
sum-mismatch message. -/
theorem try_from_vec_spec_witness :
    PortfolioTarget.try_from_vec [((90 : ℚ), Stock.new "A" 1)] =
      Except.error "Los stocks objetivos no suman un 100%" :=
  (try_from_vec_spec [((90 : ℚ), Stock.new "A" 1)]).2.2.1 (by norm_num)

/-- C9: `try_from_vec` does not reject duplicate asset names: two entries
both named META, positive and summing to 100, are accepted and both kept. -/
theorem try_from_vec_accepts_duplicate_names :
    PortfolioTarget.try_from_vec
      [(50, Stock.new "META" 1), (50, Stock.new "META" 2)] =
      Except.ok ⟨[(50, Stock.new "META" 1), (50, Stock.new "META" 2)]⟩ := by
  norm_num [PortfolioTarget.try_from_vec]

/-- C6: whenever the held prices sum to exactly zero the rebalancer returns
the empty suggestion without failing. -/
theorem rebalance_portfolio_zero_total (stocks : List Stock)
    (t : PortfolioTarget) (h : totalBalance stocks = 0) :
    rebalance_portfolio stocks t =
      some { to_buy := [], to_sell := [] } := by
  simp only [rebalance_portfolio]
  rw [if_pos h]

/-- Witness for C6: a non-empty holding of zero-priced positions. -/
theorem rebalance_portfolio_zero_total_witness :
    totalBalance [Stock.new "A" 0, Stock.new "B" 0] = 0 ∧
    rebalance_portfolio [Stock.new "A" 0, Stock.new "B" 0]
      (PortfolioTarget.new (Stock.new "META" 10)) =
      some { to_buy := [], to_sell := [] } := by
  have h : totalBalance [Stock.new "A" 0, Stock.new "B" 0] = 0 := by
    norm_num [totalBalance, Stock.new]
  exact ⟨h, rebalance_portfolio_zero_total _ _ h⟩

/-- C7: contrary to the claim, `Stock::new` performs no price validation at
all; a strictly negative price is accepted and stored unchanged. -/
theorem stock_new_accepts_negative_price :
    Stock.new "META" (-5) = { name := "META", current_price := -5 } ∧
    (Stock.new "META" (-5)).current_price < 0 := by
  refine ⟨rfl, ?_⟩
  norm_num [Stock.new]

/-- C1: contrary to the claim, the division by a target asset's price is not
guarded: with a nonzero total and a zero-priced target asset the source
evaluates `target_money / price_per_unit` on a zero divisor, which panics in
`rust_decimal` (modelled as `none`). -/
theorem rebalance_portfolio_panics_on_zero_priced_target :
    totalBalance [Stock.new "A" 100] ≠ 0 ∧
    rebalance_portfolio [Stock.new "A" 100]
      (PortfolioTarget.new (Stock.new "B" 0)) = none := by
  constructor
  · norm_num [totalBalance, Stock.new]
  · norm_num [rebalance_portfolio, totalBalance, runTargets, rebalanceStep,
      sellNotInAllocation, firstOccNames, heldUnits, mapInsert, Stock.new,
      PortfolioTarget.new, PortfolioTarget.contains_key, List.filter_cons,
      List.filter_nil, List.foldl, List.any, decide_eq_true_eq]

/-- C5: with a nonzero total, every name held but absent from the target
allocation is suggested for full exit: `to_sell` maps it to the exact number
of held positions bearing that name. -/
theorem rebalance_portfolio_full_exit (stocks : List Stock)
    (t : PortfolioTarget) (s : RebalanceSuggestion) (n : String)
    (htot : ¬ totalBalance stocks = 0)
    (hmem : n ∈ stocks.map Stock.name)
    (hnot : ¬ t.contains_key n = true)
    (hrun : rebalance_portfolio stocks t = some s) :
    mapGet s.to_sell n = some (heldUnits stocks n) := by
  simp only [rebalance_portfolio] at hrun
  rw [if_neg htot] at hrun
  have hne : ∀ e ∈ t.targets, ¬ e.2.name = n := by
    intro e he hn
    exact hnot ((contains_key_iff t n).mpr ⟨e, he, hn⟩)
  have h := runTargets_get_ne (totalBalance stocks) (heldUnits stocks) n
    t.targets _ s hne hrun
  rw [h.2]
  exact sellNotInAllocation_get_not_contains stocks t n hnot hmem

/-- Witness for C5: two held GOOG positions and a 100% META target; GOOG is
sold in full. -/
theorem rebalance_portfolio_full_exit_witness :
    mapGet (RebalanceSuggestion.to_sell ⟨[("META", 1)], [("GOOG", 2)]⟩)
      "GOOG" =
      some (heldUnits [Stock.new "GOOG" 50, Stock.new "GOOG" 50] "GOOG") := by
  refine rebalance_portfolio_full_exit
    [Stock.new "GOOG" 50, Stock.new "GOOG" 50]
    (PortfolioTarget.new (Stock.new "META" 100))
    ⟨[("META", 1)], [("GOOG", 2)]⟩ "GOOG"
    (by norm_num [totalBalance, Stock.new]) (by simp [Stock.new])
    (by decide) ?_
  norm_num [rebalance_portfolio, totalBalance, runTargets, rebalanceStep,
    sellNotInAllocation, firstOccNames, heldUnits, mapInsert, mapGet, qtrunc,
    toUsize, Stock.new, PortfolioTarget.new, PortfolioTarget.contains_key,
    List.filter_cons, List.filter_nil, List.foldl, List.any, decide_eq_true_eq]
  decide

/-- C8: every unit count stored in `to_buy` or `to_sell` of a returned
suggestion is strictly positive. -/
theorem rebalance_portfolio_values_pos (stocks : List Stock)
    (t : PortfolioTarget) (s : RebalanceSuggestion)
    (hrun : rebalance_portfolio stocks t = some s) :
    (∀ p ∈ s.to_buy, 0 < p.2) ∧ (∀ p ∈ s.to_sell, 0 < p.2) := by
  simp only [rebalance_portfolio] at hrun
  by_cases h : totalBalance stocks = 0
  · rw [if_pos h] at hrun
    cases hrun
    exact ⟨by simp, by simp⟩
  · rw [if_neg h] at hrun
    exact runTargets_values_pos _ _ t.targets _ s (by simp)
      (sellNotInAllocation_values_pos stocks t) hrun

/-- Witness for C8 on a concrete run producing one buy and one sell entry. -/
theorem rebalance_portfolio_values_pos_witness :
    (∀ p ∈ (RebalanceSuggestion.to_buy ⟨[("META", 1)], [("GOOG", 2)]⟩),
      0 < p.2) ∧
    (∀ p ∈ (RebalanceSuggestion.to_sell ⟨[("META", 1)], [("GOOG", 2)]⟩),
      0 < p.2) := by
  refine rebalance_portfolio_values_pos
    [Stock.new "GOOG" 50, Stock.new "GOOG" 50]
    (PortfolioTarget.new (Stock.new "META" 100))
    ⟨[("META", 1)], [("GOOG", 2)]⟩ ?_
  norm_num [rebalance_portfolio, totalBalance, runTargets, rebalanceStep,
    sellNotInAllocation, firstOccNames, heldUnits, mapInsert, mapGet, qtrunc,
    toUsize, Stock.new, PortfolioTarget.new, PortfolioTarget.contains_key,
    List.filter_cons, List.filter_nil, List.foldl, List.any, decide_eq_true_eq]
  decide

theorem rebalanceStep_disjoint (total : ℚ) (cu : String → Nat)
    (acc acc2 : RebalanceSuggestion) (e : ℚ × Stock)
    (hbuyE : mapGet acc.to_buy e.2.name = none)
    (hsellE : mapGet acc.to_sell e.2.name = none)
    (hdisj : ∀ n, ¬ ((mapGet acc.to_buy n).isSome = true ∧
      (mapGet acc.to_sell n).isSome = true))
    (he : rebalanceStep total cu acc e = some acc2) :
    ∀ n, ¬ ((mapGet acc2.to_buy n).isSome = true ∧
      (mapGet acc2.to_sell n).isSome = true) := by
  rw [rebalanceStep_eq] at he
  split at he
  · exact absurd he (by simp)
  · split at he
    · cases he
      rintro n ⟨h1, h2⟩
      dsimp only at h1 h2
      rcases (mapGet_isSome_mapInsert _ _ _ _).mp h1 with hn | h1
      · rw [hn, hsellE] at h2
        cases h2
      · exact hdisj n ⟨h1, h2⟩
    · split at he
      · cases he
        rintro n ⟨h1, h2⟩
        dsimp only at h1 h2
        rcases (mapGet_isSome_mapInsert _ _ _ _).mp h2 with hn | h2
        · rw [hn, hbuyE] at h1
          cases h1
        · exact hdisj n ⟨h1, h2⟩
      · cases he
        exact hdisj

theorem runTargets_disjoint (total : ℚ) (cu : String → Nat) :
    ∀ (l : List (ℚ × Stock)) (acc s : RebalanceSuggestion),
      (l.map (fun e => e.2.name)).Nodup →
      (∀ e ∈ l, mapGet acc.to_buy e.2.name = none ∧
        mapGet acc.to_sell e.2.name = none) →
      (∀ n, ¬ ((mapGet acc.to_buy n).isSome = true ∧
        (mapGet acc.to_sell n).isSome = true)) →
      runTargets total cu acc l = some s →
      ∀ n, ¬ ((mapGet s.to_buy n).isSome = true ∧
        (mapGet s.to_sell n).isSome = true) := by
  intro l
  induction l with
  | nil =>
    intro acc s _ _ hdisj h
    cases h
    exact hdisj
  | cons e l ih =>
    intro acc s hnodup hfresh hdisj h
    unfold runTargets at h
    rcases he : rebalanceStep total cu acc e with _ | acc2
    · rw [he] at h
      cases h
    · rw [he] at h
      have hefresh := hfresh e (List.mem_cons_self _ _)
      rw [List.map_cons] at hnodup
      have hnodup2 := List.nodup_cons.mp hnodup
      refine ih acc2 s hnodup2.2 ?_
        (rebalanceStep_disjoint total cu acc acc2 e hefresh.1 hefresh.2 hdisj he)
        h
      intro e2 he2
      have hne : ¬ e.2.name = e2.2.name := by
        intro hn
        exact hnodup2.1 (hn ▸ List.mem_map.mpr ⟨e2, he2, rfl⟩)
      have hkeep := rebalanceStep_get_ne total cu acc acc2 e e2.2.name hne he
      have hf := hfresh e2 (List.mem_cons_of_mem _ he2)
      exact ⟨hkeep.1.trans hf.1, hkeep.2.trans hf.2⟩

/-- C2 (amended): provided the target allocation's asset names are pairwise
distinct, no asset name occurs in both `to_buy` and `to_sell` of a returned
suggestion.  (As stated over every successfully constructed allocation the
claim is false: duplicate names are accepted and can collide, see the
counterexample.) -/
theorem rebalance_portfolio_buy_sell_disjoint_of_distinct_names
    (stocks : List Stock) (t : PortfolioTarget) (s : RebalanceSuggestion)
    (hnodup : (t.targets.map (fun e => e.2.name)).Nodup)
    (hrun : rebalance_portfolio stocks t = some s) (n : String) :
    ¬ ((mapGet s.to_buy n).isSome = true ∧
      (mapGet s.to_sell n).isSome = true) := by
  simp only [rebalance_portfolio] at hrun
  by_cases h : totalBalance stocks = 0
  · rw [if_pos h] at hrun
    cases hrun
    rintro ⟨h1, -⟩
    cases h1
  · rw [if_neg h] at hrun
    refine runTargets_disjoint _ _ t.targets _ s hnodup ?_ ?_ hrun n
    · intro e he
      exact ⟨rfl, sellNotInAllocation_get_contains stocks t e.2.name
        ((contains_key_iff t _).mpr ⟨e, he, rfl⟩)⟩
    · rintro m ⟨h1, -⟩
      cases h1

/-- Witness for the amended C2 at a concrete run. -/
theorem rebalance_portfolio_buy_sell_disjoint_witness :
    ¬ ((mapGet (RebalanceSuggestion.to_buy ⟨[("META", 1)], [("GOOG", 2)]⟩)
        "META").isSome = true ∧
      (mapGet (RebalanceSuggestion.to_sell ⟨[("META", 1)], [("GOOG", 2)]⟩)
        "META").isSome = true) := by
  refine rebalance_portfolio_buy_sell_disjoint_of_distinct_names
    [Stock.new "GOOG" 50, Stock.new "GOOG" 50]
    (PortfolioTarget.new (Stock.new "META" 100))
    ⟨[("META", 1)], [("GOOG", 2)]⟩ (by decide) ?_ "META"
  norm_num [rebalance_portfolio, totalBalance, runTargets, rebalanceStep,
    sellNotInAllocation, firstOccNames, heldUnits, mapInsert, mapGet, qtrunc,
    toUsize, Stock.new, PortfolioTarget.new, PortfolioTarget.contains_key,
    List.filter_cons, List.filter_nil, List.foldl, List.any, decide_eq_true_eq]
  decide

/-- Counterexample to C2 as stated: a successfully constructed allocation
with two entries named A (accepted, see C9) makes the name A appear in both
output maps: holding 2 units of A at 10, the 50% entry priced 1 wants
10 units (buy 8) while the 50% entry priced 100 wants 0 units (sell 2). -/
theorem rebalance_portfolio_buy_sell_collision :
    PortfolioTarget.try_from_vec
      [(50, Stock.new "A" 1), (50, Stock.new "A" 100)] =
      Except.ok ⟨[(50, Stock.new "A" 1), (50, Stock.new "A" 100)]⟩ ∧
    rebalance_portfolio [Stock.new "A" 10, Stock.new "A" 10]
      ⟨[(50, Stock.new "A" 1), (50, Stock.new "A" 100)]⟩ =
      some ⟨[("A", 8)], [("A", 2)]⟩ ∧
    (mapGet (RebalanceSuggestion.to_buy ⟨[("A", 8)], [("A", 2)]⟩)
      "A").isSome = true ∧
    (mapGet (RebalanceSuggestion.to_sell ⟨[("A", 8)], [("A", 2)]⟩)
      "A").isSome = true := by
  refine ⟨by norm_num [PortfolioTarget.try_from_vec], ?_, by decide, by decide⟩
  norm_num [rebalance_portfolio, totalBalance, runTargets, rebalanceStep,
    sellNotInAllocation, firstOccNames, heldUnits, mapInsert, mapGet, qtrunc,
    toUsize, Stock.new, PortfolioTarget.contains_key,
    List.filter_cons, List.filter_nil, List.foldl, List.any, decide_eq_true_eq]
  decide

/-- C4 (amended): for a target entry (pct, a) with positive percentage and
price, in an allocation with pairwise distinct asset names, with strictly
positive total value, and with a floor quotient that fits in `usize`, the
rebalancer computes `target_units = floor(total * (pct/100) / price)` and
suggests buying `target_units - held` when larger, selling
`held - target_units` when smaller, and nothing for that name when equal.
(As stated — for every such entry of any valid input — the claim fails when
the floor quotient exceeds `usize::MAX`, see the counterexample.) -/
theorem rebalance_portfolio_target_entry_arith (stocks : List Stock)
    (t : PortfolioTarget) (s : RebalanceSuggestion) (pct : ℚ) (a : Stock)
    (hnodup : (t.targets.map (fun e => e.2.name)).Nodup)
    (hmem : (pct, a) ∈ t.targets)
    (hpct : 0 < pct) (hprice : 0 < a.current_price)
    (htot : 0 < totalBalance stocks)
    (hfit : ⌊totalBalance stocks * (pct / 100) / a.current_price⌋ < 2 ^ 64)
    (hrun : rebalance_portfolio stocks t = some s) :
    (heldUnits stocks a.name <
        (⌊totalBalance stocks * (pct / 100) / a.current_price⌋).toNat →
      mapGet s.to_buy a.name =
        some ((⌊totalBalance stocks * (pct / 100) / a.current_price⌋).toNat -
          heldUnits stocks a.name) ∧
      mapGet s.to_sell a.name = none) ∧
    ((⌊totalBalance stocks * (pct / 100) / a.current_price⌋).toNat <
        heldUnits stocks a.name →
      mapGet s.to_sell a.name =
        some (heldUnits stocks a.name -
          (⌊totalBalance stocks * (pct / 100) / a.current_price⌋).toNat) ∧
      mapGet s.to_buy a.name = none) ∧
    ((⌊totalBalance stocks * (pct / 100) / a.current_price⌋).toNat =
        heldUnits stocks a.name →
      mapGet s.to_buy a.name = none ∧ mapGet s.to_sell a.name = none) := by
  obtain ⟨l1, l2, hsplit⟩ := List.append_of_mem hmem
  have hqpos : 0 < totalBalance stocks * (pct / 100) / a.current_price :=
    div_pos (mul_pos htot (div_pos hpct (by norm_num))) hprice
  have hfl0 : 0 ≤ ⌊totalBalance stocks * (pct / 100) / a.current_price⌋ :=
    Int.floor_nonneg.mpr hqpos.le
  have htu : (toUsize (qtrunc
      (totalBalance stocks * (pct / 100) / a.current_price))).getD 0 =
      (⌊totalBalance stocks * (pct / 100) / a.current_price⌋).toNat := by
    rw [qtrunc_of_nonneg _ hqpos.le, toUsize_getD_of_fits _ hfl0 hfit]
  have hnames := hnodup
  rw [hsplit, List.map_append, List.map_cons] at hnames
  have hnames1 := List.nodup_append.mp hnames
  have h1ne : ∀ e ∈ l1, ¬ e.2.name = a.name := by
    intro e he hn
    exact hnames1.2.2 (List.mem_map.mpr ⟨e, he, rfl⟩)
      (by rw [hn]; exact List.mem_cons_self _ _)
  have h2ne : ∀ e ∈ l2, ¬ e.2.name = a.name := by
    intro e he hn
    exact (List.nodup_cons.mp hnames1.2.1).1 (hn ▸ List.mem_map.mpr ⟨e, he, rfl⟩)
  simp only [rebalance_portfolio] at hrun
  rw [if_neg htot.ne'] at hrun
  rw [hsplit, runTargets_append] at hrun
  rcases hrun1 : runTargets (totalBalance stocks) (heldUnits stocks)
      ⟨[], sellNotInAllocation stocks t⟩ l1 with _ | a1
  · rw [hrun1] at hrun
    cases hrun
  · rw [hrun1] at hrun
    have ha1 := runTargets_get_ne (totalBalance stocks) (heldUnits stocks)
      a.name l1 _ a1 h1ne hrun1
    have ha1buy : mapGet a1.to_buy a.name = none := by
      rw [ha1.1]
      rfl
    have ha1sell : mapGet a1.to_sell a.name = none := by
      rw [ha1.2]
      exact sellNotInAllocation_get_contains stocks t a.name
        ((contains_key_iff t _).mpr ⟨(pct, a), hmem, rfl⟩)
    unfold runTargets at hrun
    rcases he : rebalanceStep (totalBalance stocks) (heldUnits stocks) a1
        (pct, a) with _ | a2
    · rw [he] at hrun
      cases hrun
    · rw [he] at hrun
      have hs := runTargets_get_ne (totalBalance stocks) (heldUnits stocks)
        a.name l2 a2 s h2ne hrun
      rw [rebalanceStep_eq] at he
      dsimp only at he
      rw [if_neg hprice.ne', htu] at he
      by_cases hlt : heldUnits stocks a.name <
          (⌊totalBalance stocks * (pct / 100) / a.current_price⌋).toNat
      · rw [if_pos hlt] at he
        cases he
        refine ⟨fun _ => ?_, fun hgt => absurd hgt (by omega),
          fun heq => absurd heq (by omega)⟩
        constructor
        · rw [hs.1]
          exact mapGet_mapInsert_self _ _ _
        · rw [hs.2]
          exact ha1sell
      · rw [if_neg hlt] at he
        by_cases hgt : (⌊totalBalance stocks * (pct / 100) /
            a.current_price⌋).toNat < heldUnits stocks a.name
        · rw [if_pos hgt] at he
          cases he
          refine ⟨fun h => absurd h (by omega), fun _ => ?_,
            fun heq => absurd heq (by omega)⟩
          constructor
          · rw [hs.2]
            exact mapGet_mapInsert_self _ _ _
          · rw [hs.1]
            exact ha1buy
        · rw [if_neg hgt] at he
          cases he
          refine ⟨fun h => absurd h (by omega), fun h => absurd h (by omega),
            fun _ => ?_⟩
          exact ⟨hs.1.trans ha1buy, hs.2.trans ha1sell⟩

/-- Witness for the amended C4: total 100, one 100% target META priced 25,
nothing of META held, so the computed target of 4 units is suggested as a
buy and META does not occur in `to_sell`. -/
theorem rebalance_portfolio_target_entry_arith_witness :
    mapGet (RebalanceSuggestion.to_buy ⟨[("META", 4)], [("CASH", 1)]⟩)
        "META" =
      some ((⌊totalBalance [Stock.new "CASH" 100] * ((100 : ℚ) / 100) /
        (Stock.new "META" 25).current_price⌋).toNat -
        heldUnits [Stock.new "CASH" 100] "META") ∧
    mapGet (RebalanceSuggestion.to_sell ⟨[("META", 4)], [("CASH", 1)]⟩)
        "META" = none := by
  refine (rebalance_portfolio_target_entry_arith [Stock.new "CASH" 100]
    ⟨[(100, Stock.new "META" 25)]⟩ ⟨[("META", 4)], [("CASH", 1)]⟩
    100 (Stock.new "META" 25)
    (by decide) (by simp) (by norm_num) (by norm_num [Stock.new])
    (by norm_num [totalBalance, Stock.new]) ?hfit ?hrun).1 ?hcmp
  case hfit =>
    norm_num [totalBalance, Stock.new]
  case hrun =>
    norm_num [rebalance_portfolio, totalBalance, runTargets, rebalanceStep,
      sellNotInAllocation, firstOccNames, heldUnits, mapInsert, mapGet, qtrunc,
      toUsize, Stock.new, PortfolioTarget.contains_key, List.filter_cons,
      List.filter_nil, List.foldl, List.any, decide_eq_true_eq]
    decide
  case hcmp =>
    norm_num [totalBalance, heldUnits, Stock.new, List.filter_cons,
      List.filter_nil]
    decide

/-- Counterexample to C4 as stated: one position CASH priced 2^70 and a
100% target A priced 1.  The entry's price is positive, the total is
nonzero, A is not held, and the floor quotient is 2^70 > held units, yet
the code's `to_usize` conversion fails, `unwrap_or(0)` makes
`target_units = 0`, and no buy entry for A is produced. -/
theorem rebalance_portfolio_target_entry_overflow_cex :
    (0 : ℚ) < (Stock.new "A" 1).current_price ∧
    totalBalance [Stock.new "CASH" (2 ^ 70)] ≠ 0 ∧
    heldUnits [Stock.new "CASH" (2 ^ 70)] "A" = 0 ∧
    ⌊totalBalance [Stock.new "CASH" (2 ^ 70)] * ((100 : ℚ) / 100) /
      (Stock.new "A" 1).current_price⌋ = 2 ^ 70 ∧
    rebalance_portfolio [Stock.new "CASH" (2 ^ 70)]
      ⟨[(100, Stock.new "A" 1)]⟩ = some ⟨[], [("CASH", 1)]⟩ ∧
    mapGet (RebalanceSuggestion.to_buy ⟨[], [("CASH", 1)]⟩) "A" = none := by
  refine ⟨by norm_num [Stock.new], by norm_num [totalBalance, Stock.new],
    by decide, by norm_num [totalBalance, Stock.new], ?_, by decide⟩
  norm_num [rebalance_portfolio, totalBalance, runTargets, rebalanceStep,
    sellNotInAllocation, firstOccNames, heldUnits, mapInsert, mapGet, qtrunc,
    toUsize, Stock.new, PortfolioTarget.contains_key, List.filter_cons,
    List.filter_nil, List.foldl, List.any, decide_eq_true_eq]
  decide

theorem runTargets_overflow_entry (total : ℚ) (cu : String → Nat)
    (pct : ℚ) (a : Stock)
    (htu : (toUsize (qtrunc (total * (pct / 100) / a.current_price))).getD 0
      = 0)
    (hheld : 0 < cu a.name) :
    ∀ (l : List (ℚ × Stock)) (acc s : RebalanceSuggestion),
      (pct, a) ∈ l →
      (∀ e ∈ l, e.2.name = a.name → e = (pct, a)) →
      mapGet acc.to_buy a.name = none →
      (mapGet acc.to_sell a.name = none ∨
        mapGet acc.to_sell a.name = some (cu a.name)) →
      runTargets total cu acc l = some s →
      mapGet s.to_sell a.name = some (cu a.name) ∧
      mapGet s.to_buy a.name = none := by
  intro l
  induction l with
  | nil =>
    intro acc s hmem
    simp at hmem
  | cons e l ih =>
    intro acc s hmem huniq hbuy hsell hrun
    unfold runTargets at hrun
    rcases he : rebalanceStep total cu acc e with _ | acc2
    · rw [he] at hrun
      cases hrun
    · rw [he] at hrun
      by_cases heq : e = (pct, a)
      · subst heq
        rw [rebalanceStep_eq] at he
        dsimp only at he
        split at he
        · exact absurd he (by simp)
        · rw [htu] at he
          rw [if_neg (Nat.not_lt_zero _), if_pos hheld] at he
          cases he
          dsimp only at hrun
          by_cases hmem2 : (pct, a) ∈ l
          · refine ih ⟨acc.to_buy, mapInsert acc.to_sell a.name
                (cu a.name - 0)⟩ s hmem2
              (fun x hx hn => huniq x (List.mem_cons_of_mem _ hx) hn)
              hbuy ?_ hrun
            right
            dsimp only
            rw [Nat.sub_zero]
            exact mapGet_mapInsert_self _ _ _
          · have hne : ∀ x ∈ l, ¬ x.2.name = a.name := by
              intro x hx hn
              exact hmem2 ((huniq x (List.mem_cons_of_mem _ hx) hn) ▸ hx)
            have hk := runTargets_get_ne total cu a.name l
              ⟨acc.to_buy, mapInsert acc.to_sell a.name (cu a.name - 0)⟩
              s hne hrun
            refine ⟨?_, hk.1.trans hbuy⟩
            rw [hk.2]
            dsimp only
            rw [Nat.sub_zero]
            exact mapGet_mapInsert_self _ _ _
      · have hne : ¬ e.2.name = a.name := fun hn =>
          heq (huniq e (List.mem_cons_self _ _) hn)
        have hk := rebalanceStep_get_ne total cu acc acc2 e a.name hne he
        have hmem2 : (pct, a) ∈ l := by
          rcases List.mem_cons.mp hmem with h | h
          · exact absurd h.symm heq
          · exact h
        refine ih acc2 s hmem2
          (fun x hx hn => huniq x (List.mem_cons_of_mem _ hx) hn)
          (hk.1.trans hbuy) ?_ hrun
        rw [hk.2]
        exact hsell

/-- C10: when the truncated quotient `floor(target_money / price)` of a
target entry does not fit in a 64-bit `usize`, `to_usize` fails and
`unwrap_or(0)` makes the entry's `target_units` zero, so a held asset of
that (uniquely named) entry is suggested for sale of all held units and is
never bought. -/
theorem rebalance_portfolio_usize_overflow_sells_all (stocks : List Stock)
    (t : PortfolioTarget) (s : RebalanceSuggestion) (pct : ℚ) (a : Stock)
    (hmem : (pct, a) ∈ t.targets)
    (huniq : ∀ e ∈ t.targets, e.2.name = a.name → e = (pct, a))
    (hover : 2 ^ 64 ≤ ⌊totalBalance stocks * (pct / 100) / a.current_price⌋)
    (hheld : 0 < heldUnits stocks a.name)
    (hrun : rebalance_portfolio stocks t = some s) :
    (toUsize (qtrunc (totalBalance stocks * (pct / 100) /
      a.current_price))).getD 0 = 0 ∧
    mapGet s.to_sell a.name = some (heldUnits stocks a.name) ∧
    mapGet s.to_buy a.name = none := by
  have hq2 : ((2 : ℚ) ^ 64) ≤ totalBalance stocks * (pct / 100) /
      a.current_price := by
    have := Int.le_floor.mp hover
    exact_mod_cast this
  have hq : (0 : ℚ) ≤ totalBalance stocks * (pct / 100) / a.current_price :=
    le_trans (by positivity) hq2
  have htu : (toUsize (qtrunc (totalBalance stocks * (pct / 100) /
      a.current_price))).getD 0 = 0 := by
    rw [qtrunc_of_nonneg _ hq, toUsize_getD_of_overflow _ hover]
  have htot : ¬ totalBalance stocks = 0 := by
    intro h0
    rw [h0] at hover
    norm_num at hover
  simp only [rebalance_portfolio] at hrun
  rw [if_neg htot] at hrun
  have hinit : mapGet (sellNotInAllocation stocks t) a.name = none :=
    sellNotInAllocation_get_contains stocks t a.name
      ((contains_key_iff t _).mpr ⟨(pct, a), hmem, rfl⟩)
  exact ⟨htu, runTargets_overflow_entry (totalBalance stocks)
    (heldUnits stocks) pct a htu hheld t.targets
    ⟨[], sellNotInAllocation stocks t⟩ s hmem huniq rfl
    (Or.inl hinit) hrun⟩

/-- Witness for C10: one held unit of A priced 2^70 with a 100% target for A
priced 1; the quotient 2^70 exceeds usize::MAX, so the single held unit is
sold. -/
theorem rebalance_portfolio_usize_overflow_witness :
    (toUsize (qtrunc (totalBalance [Stock.new "A" (2 ^ 70)] *
      ((100 : ℚ) / 100) / (Stock.new "A" 1).current_price))).getD 0 = 0 ∧
    mapGet (RebalanceSuggestion.to_sell ⟨[], [("A", 1)]⟩) "A" =
      some (heldUnits [Stock.new "A" (2 ^ 70)] "A") ∧
    mapGet (RebalanceSuggestion.to_buy ⟨[], [("A", 1)]⟩) "A" = none := by
  refine rebalance_portfolio_usize_overflow_sells_all
    [Stock.new "A" (2 ^ 70)] ⟨[(100, Stock.new "A" 1)]⟩ ⟨[], [("A", 1)]⟩
    100 (Stock.new "A" 1) (by simp)
    (by intro e he _; simpa using he) ?hover (by decide) ?hrun
  case hover =>
    norm_num [totalBalance, Stock.new]
  case hrun =>
    norm_num [rebalance_portfolio, totalBalance, runTargets, rebalanceStep,
      sellNotInAllocation, firstOccNames, heldUnits, mapInsert, mapGet, qtrunc,
      toUsize, Stock.new, PortfolioTarget.contains_key, List.filter_cons,
      List.filter_nil, List.foldl, List.any, decide_eq_true_eq]

example :
    rebalance_portfolio
      [Stock.new "GOOG" 50, Stock.new "GOOG" 50]
      (PortfolioTarget.new (Stock.new "META" 100)) =
    some { to_buy := [("META", 1)], to_sell := [("GOOG", 2)] } := by
  norm_num [rebalance_portfolio, totalBalance, runTargets, rebalanceStep,
    sellNotInAllocation, firstOccNames, heldUnits, mapInsert, mapGet, qtrunc,
    toUsize, Stock.new, PortfolioTarget.new, PortfolioTarget.contains_key,
    List.filter_cons, List.filter_nil, List.foldl, List.any, decide_eq_true_eq]
  decide

example :
    rebalance_portfolio
      [Stock.new "CASH" 1, Stock.new "CASH" 1, Stock.new "CASH" 1,
       Stock.new "CASH" 1]
      (PortfolioTarget.new (Stock.new "META" 1)) =
    some { to_buy := [("META", 4)], to_sell := [("CASH", 4)] } := by
  norm_num [rebalance_portfolio, totalBalance, runTargets, rebalanceStep,
    sellNotInAllocation, firstOccNames, heldUnits, mapInsert, mapGet, qtrunc,
    toUsize, Stock.new, PortfolioTarget.new, PortfolioTarget.contains_key,
    List.filter_cons, List.filter_nil, List.foldl, List.any, decide_eq_true_eq]
  decide
